import Mathlib

/-!
Verification development for the memex capture-processing pipeline
(`lib/textProcessing.js`): text sanitizer, temporal extractor, text
combiner, embedding wrapper, capture processing state machine, and the
hybrid search merger.  The JavaScript source is shallowly embedded:
strings are `List Char` / `String`, the regex pipeline of
`cleanExtractedText` is executed by a small backtracking matcher that
follows JavaScript regex semantics for the patterns that occur in the
source (greedy/lazy repetition, alternation order, word boundaries,
lookahead, the `s` and `m` flags), numbers are `ℚ`, and the external
collaborators (Vision OCR, the embedding service, the chrono date
parser, the Supabase update calls) are explicit parameters.
-/

/-- JavaScript `\w` / word character: `[A-Za-z0-9_]`. -/
def isWordChar (c : Char) : Bool :=
  (('a' ≤ c && c ≤ 'z') || ('A' ≤ c && c ≤ 'Z') || ('0' ≤ c && c ≤ '9') || c == '_')

/-- JavaScript `\s` whitespace (ASCII part: space, tab, LF, VT, FF, CR). -/
def isJsSpace (c : Char) : Bool :=
  (c == ' ' || c == '\t' || c == '\n' || c == '\x0b' || c == '\x0c' || c == '\r')

/-- JavaScript `String.prototype.trim` on a character list. -/
def jsTrimL (l : List Char) : List Char :=
  ((l.dropWhile isJsSpace).reverse.dropWhile isJsSpace).reverse

/-- JavaScript `String.prototype.trim`. -/
def jsTrimS (s : String) : String :=
  ⟨jsTrimL s.data⟩

/-- Regular-expression syntax, restricted to the constructs used by the
source patterns.  `star true` is greedy `*`, `star false` is lazy `*?`;
`look` is the lookahead `(?=...)`; `wb` is `\b`; `eosA` is `$` without
the `m` flag; `bolM`/`eolM` are `^`/`$` with the `m` flag. -/
inductive RE where
  | eps : RE
  | tst : (Char → Bool) → RE
  | seq : RE → RE → RE
  | alt : RE → RE → RE
  | star : Bool → RE → RE
  | wb : RE
  | look : RE → RE
  | eosA : RE
  | bolM : RE
  | eolM : RE

/-- Backtracking matcher in continuation-passing style, mirroring the
JavaScript regex backtracking order: alternation tries the left branch
first, a greedy star tries to consume first, a lazy star tries the
continuation first.  `prev` is the character before the current
position (for `\b`, `^m`), `k` receives the new previous character and
the remaining input.  The fuel bounds recursion depth; every call site
supplies fuel exceeding any reachable depth, so the fuel never runs
out on the inputs we evaluate. -/
def mrun : Nat → RE → Option Char → List Char →
    (Option Char → List Char → Option (List Char)) → Option (List Char)
  | 0, _, _, _, _ => none
  | _ + 1, RE.eps, prev, s, k => k prev s
  | _ + 1, RE.tst _, _, [], _ => none
  | _ + 1, RE.tst f, _, c :: rest, k => if f c then k (some c) rest else none
  | fu + 1, RE.seq a b, prev, s, k =>
      mrun fu a prev s (fun p' s' => mrun fu b p' s' k)
  | fu + 1, RE.alt a b, prev, s, k =>
      (mrun fu a prev s k).orElse (fun _ => mrun fu b prev s k)
  | fu + 1, RE.star g r, prev, s, k =>
      if g then
        (mrun fu r prev s (fun p' s' => mrun fu (RE.star true r) p' s' k)).orElse
          (fun _ => k prev s)
      else
        (k prev s).orElse
          (fun _ => mrun fu r prev s (fun p' s' => mrun fu (RE.star false r) p' s' k))
  | _ + 1, RE.wb, prev, s, k =>
      let pw := match prev with | some c => isWordChar c | none => false
      let nw := match s with | c :: _ => isWordChar c | [] => false
      if pw != nw then k prev s else none
  | fu + 1, RE.look r, prev, s, k =>
      match mrun fu r prev s (fun _ _ => some []) with
      | some _ => k prev s
      | none => none
  | _ + 1, RE.eosA, prev, s, k =>
      match s with | [] => k prev s | _ :: _ => none
  | _ + 1, RE.bolM, prev, s, k =>
      match prev with
      | none => k prev s
      | some c => if c == '\n' then k prev s else none
  | _ + 1, RE.eolM, prev, s, k =>
      match s with
      | [] => k prev s
      | c :: _ => if c == '\n' then k prev s else none

/-- Try to match `re` starting exactly at the current position; on
success return the remaining suffix after the (first, per backtracking
order) match. -/
def findAt (re : RE) (prev : Option Char) (s : List Char) : Option (List Char) :=
  mrun (1000 * (s.length + 2) + 1000) re prev s (fun _ rest => some rest)

/-- One step of a global (`g` flag) replace: scan left to right, at
each position try the pattern; on a match, emit `f matched` and resume
after the match (advancing one character on an empty match, as
JavaScript does). -/
def gReplaceGo : Nat → RE → (List Char → List Char) → Option Char → List Char → List Char
  | 0, _, _, _, s => s
  | fu + 1, re, f, prev, s =>
      match findAt re prev s with
      | some rest =>
          let m := s.take (s.length - rest.length)
          match m with
          | [] =>
              match s with
              | [] => f []
              | c :: tl => f [] ++ c :: gReplaceGo fu re f (some c) tl
          | _ :: _ => f m ++ gReplaceGo fu re f m.getLast? rest
      | none =>
          match s with
          | [] => []
          | c :: tl => c :: gReplaceGo fu re f (some c) tl

/-- JavaScript `str.replace(/re/g, f)` with a replacement callback. -/
def gReplace (re : RE) (f : List Char → List Char) (s : List Char) : List Char :=
  gReplaceGo (s.length + 2) re f none s

/-- JavaScript `str.replace(/re/g, "")`. -/
def gDelete (re : RE) (s : List Char) : List Char :=
  gReplace re (fun _ => []) s

/-- JavaScript `str.replace(/re/g, t)` with a constant replacement. -/
def gReplaceWith (re : RE) (t : List Char) (s : List Char) : List Char :=
  gReplace re (fun _ => t) s

/-- All matches of a global regex with their start indices, as
`String.prototype.matchAll` yields them. -/
def gFindAllGo : Nat → RE → Option Char → List Char → Nat → List (List Char × Nat)
  | 0, _, _, _, _ => []
  | fu + 1, re, prev, s, pos =>
      match findAt re prev s with
      | some rest =>
          let m := s.take (s.length - rest.length)
          match m with
          | [] =>
              match s with
              | [] => [([], pos)]
              | c :: tl => ([], pos) :: gFindAllGo fu re (some c) tl (pos + 1)
          | _ :: _ => (m, pos) :: gFindAllGo fu re m.getLast? rest (pos + m.length)
      | none =>
          match s with
          | [] => []
          | c :: tl => gFindAllGo fu re (some c) tl (pos + 1)

/-- JavaScript `[...str.matchAll(/re/g)]`, projected to (matched text, index). -/
def gFindAll (re : RE) (s : List Char) : List (List Char × Nat) :=
  gFindAllGo (s.length + 2) re none s 0

/-- JavaScript `str.match(/re/)` viewed as a boolean test (is there a
match anywhere). -/
def reTestGo : Nat → RE → Option Char → List Char → Bool
  | 0, _, _, _ => false
  | fu + 1, re, prev, s =>
      match findAt re prev s with
      | some _ => true
      | none =>
          match s with
          | [] => false
          | c :: tl => reTestGo fu re (some c) tl

/-- Test whether `re` matches anywhere in `s`. -/
def reTest (re : RE) (s : List Char) : Bool :=
  reTestGo (s.length + 2) re none s

/-- Literal character pattern. -/
def rchar (c : Char) : RE :=
  RE.tst (fun d => d == c)

/-- Literal string pattern. -/
def rstr (s : String) : RE :=
  s.data.foldr (fun c acc => RE.seq (rchar c) acc) RE.eps

/-- Case-insensitive literal character (the `i` flag). -/
def rcharCI (c : Char) : RE :=
  RE.tst (fun d => d.toLower == c.toLower)

/-- Case-insensitive literal string (the `i` flag). -/
def rstrCI (s : String) : RE :=
  s.data.foldr (fun c acc => RE.seq (rcharCI c) acc) RE.eps

/-- Greedy `+`. -/
def plusG (r : RE) : RE :=
  RE.seq r (RE.star true r)

/-- Greedy `?`. -/
def optG (r : RE) : RE :=
  RE.alt r RE.eps

/-- Exactly `n` repetitions `{n}`. -/
def repExact (r : RE) : Nat → RE
  | 0 => RE.eps
  | n + 1 => RE.seq r (repExact r n)

/-- Greedy `{0,n}`. -/
def repUpTo (r : RE) : Nat → RE
  | 0 => RE.eps
  | n + 1 => RE.alt (RE.seq r (repUpTo r n)) RE.eps

/-- Greedy `{1,n}` (used for `\d{1,3}`). -/
def rep1To (r : RE) (n : Nat) : RE :=
  RE.seq r (repUpTo r (n - 1))

/-- First-alternative-wins alternation of a list of patterns, in the
order they are written in the source regex. -/
def altList : List RE → RE
  | [] => RE.eps
  | [r] => r
  | r :: rs => RE.alt r (altList rs)

/-- The `.` pattern with the `s` flag (matches any character). -/
def anyS : RE :=
  RE.tst (fun _ => true)

/-- The `.` pattern without the `s` flag (anything except a newline). -/
def anyNoNL : RE :=
  RE.tst (fun c => c != '\n')

/-- The `\d` class. -/
def dC : RE :=
  RE.tst (fun c => '0' ≤ c && c ≤ '9')

/-- The `\w` class. -/
def wC : RE :=
  RE.tst isWordChar

/-- The `\s` class. -/
def sC : RE :=
  RE.tst isJsSpace

/-- The `[ \t]` class. -/
def spTab : RE :=
  RE.tst (fun c => c == ' ' || c == '\t')

/-- The `[A-Z]` class. -/
def upperC : RE :=
  RE.tst (fun c => 'A' ≤ c && c ≤ 'Z')

/-- The lookahead `(?=\n\n|\n[A-Z]|$)` shared by the console-noise
removal rules of `cleanExtractedText`. -/
def boundLA : RE :=
  RE.look (altList [rstr "\n\n", RE.seq (rchar '\n') upperC, RE.eosA])

/-- Lazy `.*?` under the `s` flag followed by the shared lookahead. -/
def lazyTail : RE :=
  RE.seq (RE.star false anyS) boundLA

/-- Digits of a matched numeral, as a natural number (JavaScript
`parseInt` on an all-digit match). -/
def digitsToNat (l : List Char) : Nat :=
  l.foldl (fun a c => a * 10 + (c.toNat - '0'.toNat)) 0

/-- Callback of the year-cleaning rule: keep a 4-digit number iff it
lies in `[1900, 2100]`, otherwise replace it with the empty string. -/
def yearCallback (m : List Char) : List Char :=
  let year := digitsToNat m
  if 1900 ≤ year && year ≤ 2100 then m else []

/-- Rule of `/src\/lib\/api\.js.*?processCaptureAPI/gs`. -/
def ruleApiJs : RE :=
  RE.seq (rstr "src/lib/api.js") (RE.seq (RE.star false anyS) (rstr "processCaptureAPI"))

/-- Rule of `/src\/.*?\.(js|tsx?)\s*\(\d+:\d+\)/g` (no `s` flag: `.`
does not cross newlines). -/
def ruleSrcRef : RE :=
  RE.seq (rstr "src/")
    (RE.seq (RE.star false anyNoNL)
      (RE.seq (rchar '.')
        (RE.seq (RE.alt (rstr "js") (RE.seq (rstr "ts") (optG (rchar 'x'))))
          (RE.seq (RE.star true sC)
            (RE.seq (rchar '(')
              (RE.seq (plusG dC)
                (RE.seq (rchar ':') (RE.seq (plusG dC) (rchar ')')))))))))

/-- Rule of `/Call Stack.*?(?=\n\n|\n[A-Z]|$)/gs`. -/
def ruleCallStack : RE :=
  RE.seq (rstr "Call Stack") lazyTail

/-- Rule of `/async handleProcessCapture.*?(?=\n\n|\n[A-Z]|$)/gs`. -/
def ruleAsyncHandle : RE :=
  RE.seq (rstr "async handleProcessCapture") lazyTail

/-- Rule of `/if \(response\.ok\)\s*\{.*?\}/gs`. -/
def ruleIfResponseOk : RE :=
  RE.seq (rstr "if (response.ok)")
    (RE.seq (RE.star true sC)
      (RE.seq (rchar '\x7b') (RE.seq (RE.star false anyS) (rchar '\x7d'))))

/-- Rule of `/throw new Error.*?(?=\n\n|\n[A-Z]|$)/gs`. -/
def ruleThrowNewError : RE :=
  RE.seq (rstr "throw new Error") lazyTail

/-- Rule of `/Processing failed.*?(?=\n\n|\n[A-Z]|$)/gs`. -/
def ruleProcessingFailed : RE :=
  RE.seq (rstr "Processing failed") lazyTail

/-- Rule of `/Capture not found.*?(?=\n\n|\n[A-Z]|$)/gs`. -/
def ruleCaptureNotFound : RE :=
  RE.seq (rstr "Capture not found") lazyTail

/-- Rule of `/Error details:.*?(?=\n\n|\n[A-Z]|$)/gs`. -/
def ruleErrorDetails : RE :=
  RE.seq (rstr "Error details:") lazyTail

/-- Rule of `/API call failed:.*?(?=\n\n|\n[A-Z]|$)/gs`. -/
def ruleApiCallFailed : RE :=
  RE.seq (rstr "API call failed:") lazyTail

/-- Rule of `/console\.(log|error|warn|info).*?(?=\n\n|\n[A-Z]|$)/gs`. -/
def ruleConsole : RE :=
  RE.seq (rstr "console.")
    (RE.seq (altList [rstr "log", rstr "error", rstr "warn", rstr "info"]) lazyTail)

/-- Rule of `/at \w+.*?(?=\n\n|\n[A-Z]|$)/gs`. -/
def ruleAtFrame : RE :=
  RE.seq (rstr "at ") (RE.seq (plusG wC) lazyTail)

/-- Rule of `/Uncaught.*?(?=\n\n|\n[A-Z]|$)/gs`. -/
def ruleUncaught : RE :=
  RE.seq (rstr "Uncaught") lazyTail

/-- Rule of `/\d+\s+\d+\s+return\s+date:/g`. -/
def ruleNumNumReturnDate : RE :=
  RE.seq (plusG dC)
    (RE.seq (plusG sC)
      (RE.seq (plusG dC)
        (RE.seq (plusG sC)
          (RE.seq (rstr "return") (RE.seq (plusG sC) (rstr "date:"))))))

/-- Rule of `/\d+\s+\d+\s+return/g`. -/
def ruleNumNumReturn : RE :=
  RE.seq (plusG dC)
    (RE.seq (plusG sC) (RE.seq (plusG dC) (RE.seq (plusG sC) (rstr "return"))))

/-- Rule of `/\d+\s+\d+\s+/g`. -/
def ruleNumNumSpace : RE :=
  RE.seq (plusG dC) (RE.seq (plusG sC) (RE.seq (plusG dC) (plusG sC)))

/-- Rule of `/return\s+date:.*?(?=\n\n|\n[A-Z]|$)/gs`. -/
def ruleReturnDate : RE :=
  RE.seq (rstr "return") (RE.seq (plusG sC) (RE.seq (rstr "date:") lazyTail))

/-- Rule of `/\d+\s*\/\s*\d+\s*\/\s*\d+/g` (slash-delimited numeric
triples that look like file paths or dates). -/
def ruleSlashTriple : RE :=
  RE.seq (plusG dC)
    (RE.seq (RE.star true sC)
      (RE.seq (rchar '/')
        (RE.seq (RE.star true sC)
          (RE.seq (plusG dC)
            (RE.seq (RE.star true sC)
              (RE.seq (rchar '/') (RE.seq (RE.star true sC) (plusG dC))))))))

/-- Rule of `/\b\d{1,3}\s+\d{1,3}\b/g` (short number pairs). -/
def ruleShortPair : RE :=
  RE.seq RE.wb
    (RE.seq (rep1To dC 3) (RE.seq (plusG sC) (RE.seq (rep1To dC 3) RE.wb)))

/-- Rule of
`/\b(return|const|let|var|function|async|await|if|else|try|catch|throw|new|Error)\b.*?(?=\n\n|\n[A-Z]|$)/gs`. -/
def ruleKeyword : RE :=
  RE.seq RE.wb
    (RE.seq
      (altList [rstr "return", rstr "const", rstr "let", rstr "var", rstr "function",
        rstr "async", rstr "await", rstr "if", rstr "else", rstr "try", rstr "catch",
        rstr "throw", rstr "new", rstr "Error"])
      (RE.seq RE.wb lazyTail))

/-- Rule of `/\b\d{4}\b/g` (year candidates; replaced through
`yearCallback`). -/
def ruleYear : RE :=
  RE.seq RE.wb (RE.seq (repExact dC 4) RE.wb)

/-- Rule of `/\n{3,}/g`. -/
def ruleNewlines3 : RE :=
  RE.seq (repExact (rchar '\n') 3) (RE.star true (rchar '\n'))

/-- Rule of `/[ \t]+$/gm`. -/
def ruleTrailingWs : RE :=
  RE.seq (plusG spTab) RE.eolM

/-- Rule of `/^[ \t]+$/gm`. -/
def ruleWsOnlyLine : RE :=
  RE.seq RE.bolM (RE.seq (plusG spTab) RE.eolM)

/-- Rule of `/\n\s*\n\s*\n/g`. -/
def ruleMultiEmpty : RE :=
  RE.seq (rchar '\n')
    (RE.seq (RE.star true sC)
      (RE.seq (rchar '\n') (RE.seq (RE.star true sC) (rchar '\n'))))

/-- The `cleanExtractedText` pipeline on character lists: the
replacement passes in source order, then the final `.trim()`. -/
def cleanL (rawText : List Char) : List Char :=
  let s01 := gDelete ruleApiJs rawText
  let s02 := gDelete ruleSrcRef s01
  let s03 := gDelete ruleCallStack s02
  let s04 := gDelete ruleAsyncHandle s03
  let s05 := gDelete ruleIfResponseOk s04
  let s06 := gDelete ruleThrowNewError s05
  let s07 := gDelete ruleProcessingFailed s06
  let s08 := gDelete ruleCaptureNotFound s07
  let s09 := gDelete ruleErrorDetails s08
  let s10 := gDelete ruleApiCallFailed s09
  let s11 := gDelete ruleConsole s10
  let s12 := gDelete ruleAtFrame s11
  let s13 := gDelete ruleUncaught s12
  let s14 := gDelete ruleNumNumReturnDate s13
  let s15 := gDelete ruleNumNumReturn s14
  let s16 := gDelete ruleNumNumSpace s15
  let s17 := gDelete ruleReturnDate s16
  let s18 := gDelete ruleSlashTriple s17
  let s19 := gDelete ruleShortPair s18
  let s20 := gDelete ruleKeyword s19
  let s21 := gReplace ruleYear yearCallback s20
  let s22 := gReplaceWith ruleNewlines3 ('\n' :: ['\n']) s21
  let s23 := gDelete ruleTrailingWs s22
  let s24 := gDelete ruleWsOnlyLine s23
  let s25 := gReplaceWith ruleMultiEmpty ('\n' :: ['\n']) s24
  jsTrimL s25

/-- The source's `cleanExtractedText` (the non-string/null guard of the
JavaScript function is outside the `String` domain; on strings the
function is the regex pipeline). -/
def cleanExtractedText (rawText : String) : String :=
  ⟨cleanL rawText.data⟩

/-- Pattern 1 of `TEMPORAL_CONTEXT_PATTERNS`:
`/\b(today|yesterday|tomorrow|tonight|this morning|this afternoon|this evening)\b/gi`. -/
def ctxPat1 : RE :=
  RE.seq RE.wb
    (RE.seq
      (altList [rstrCI "today", rstrCI "yesterday", rstrCI "tomorrow", rstrCI "tonight",
        rstrCI "this morning", rstrCI "this afternoon", rstrCI "this evening"])
      RE.wb)

/-- Names of the week usable after "last". -/
def lastWords : List RE :=
  [rstrCI "week", rstrCI "month", rstrCI "year", rstrCI "night", rstrCI "monday",
    rstrCI "tuesday", rstrCI "wednesday", rstrCI "thursday", rstrCI "friday",
    rstrCI "saturday", rstrCI "sunday"]

/-- Pattern 2 of `TEMPORAL_CONTEXT_PATTERNS`:
`/\b(last (week|month|year|night|monday|...|sunday))\b/gi`. -/
def ctxPat2 : RE :=
  RE.seq RE.wb (RE.seq (rstrCI "last ") (RE.seq (altList lastWords) RE.wb))

/-- Names of the week usable after "next" (no "night", as in the source). -/
def nextWords : List RE :=
  [rstrCI "week", rstrCI "month", rstrCI "year", rstrCI "monday", rstrCI "tuesday",
    rstrCI "wednesday", rstrCI "thursday", rstrCI "friday", rstrCI "saturday",
    rstrCI "sunday"]

/-- Pattern 3 of `TEMPORAL_CONTEXT_PATTERNS`:
`/\b(next (week|month|year|monday|...|sunday))\b/gi`. -/
def ctxPat3 : RE :=
  RE.seq RE.wb (RE.seq (rstrCI "next ") (RE.seq (altList nextWords) RE.wb))

/-- Pattern 4 of `TEMPORAL_CONTEXT_PATTERNS`:
`/\b(\d+)\s*(days?|weeks?|months?)\s*(ago|from now)\b/gi`. -/
def ctxPat4 : RE :=
  RE.seq RE.wb
    (RE.seq (plusG dC)
      (RE.seq (RE.star true sC)
        (RE.seq
          (altList [RE.seq (rstrCI "day") (optG (rcharCI 's')),
            RE.seq (rstrCI "week") (optG (rcharCI 's')),
            RE.seq (rstrCI "month") (optG (rcharCI 's'))])
          (RE.seq (RE.star true sC)
            (RE.seq (altList [rstrCI "ago", rstrCI "from now"]) RE.wb)))))

/-- Pattern 5 of `TEMPORAL_CONTEXT_PATTERNS`:
`/\b(morning|afternoon|evening|night)\s*(pages|journal|notes|thoughts|reflection)\b/gi`. -/
def ctxPat5 : RE :=
  RE.seq RE.wb
    (RE.seq (altList [rstrCI "morning", rstrCI "afternoon", rstrCI "evening", rstrCI "night"])
      (RE.seq (RE.star true sC)
        (RE.seq
          (altList [rstrCI "pages", rstrCI "journal", rstrCI "notes", rstrCI "thoughts",
            rstrCI "reflection"])
          RE.wb)))

/-- The `TEMPORAL_CONTEXT_PATTERNS` array, in source order. -/
def temporalContextPatterns : List RE :=
  [ctxPat1, ctxPat2, ctxPat3, ctxPat4, ctxPat5]

theorem dropWhile_length_le (p : Char → Bool) :
    ∀ l : List Char, (l.dropWhile p).length ≤ l.length := by
  intro l
  induction l with
  | nil => simp [List.dropWhile]
  | cons c tl ih =>
      by_cases h : p c
      · simpa [List.dropWhile, h] using Nat.le_succ_of_le ih
      · simp [List.dropWhile, h]

/-- Key normalization of a temporal-context match:
`match[0].toLowerCase().replace(/\s+/g, "_")` — lowercase, then each
maximal whitespace run becomes a single underscore. -/
def collapseWsUnderscore : List Char → List Char
  | [] => []
  | c :: tl =>
      if isJsSpace c then '_' :: collapseWsUnderscore (tl.dropWhile isJsSpace)
      else c :: collapseWsUnderscore tl
termination_by l => l.length
decreasing_by
  · exact Nat.lt_succ_of_le (dropWhile_length_le _ _)
  · exact Nat.lt_succ_self _

/-- Normalized key of a context match. -/
def ctxKey (m : List Char) : String :=
  ⟨collapseWsUnderscore (m.map Char.toLower)⟩

/-- A temporal-context value: the original matched text and its
character offset in the scanned text. -/
structure CtxVal where
  text : String
  index : Nat
  deriving DecidableEq, Repr

/-- JavaScript object assignment `context[key] = value`: an existing
key keeps its insertion position but takes the new value; a fresh key
is appended. -/
def ctxSet : List (String × CtxVal) → String → CtxVal → List (String × CtxVal)
  | [], k, v => [(k, v)]
  | (k', v') :: tl, k, v =>
      if k' = k then (k', v) :: tl else (k', v') :: ctxSet tl k v

/-- The source's `extractTemporalContext`: scan the text with every
context pattern in order; each match is stored under its normalized
key (later matches with the same key overwrite earlier ones). -/
def extractTemporalContext (text : String) : List (String × CtxVal) :=
  temporalContextPatterns.foldl
    (fun ctx pat =>
      (gFindAll pat text.data).foldl
        (fun ctx mi => ctxSet ctx (ctxKey mi.1) ⟨⟨mi.1⟩, mi.2⟩)
        ctx)
    []

/-- Test of `/\d{4}/` (the "has year" heuristic). -/
def hasFourDigits (s : List Char) : Bool :=
  reTest (repExact dC 4) s

/-- Test of `/\b(January|February|...|December)\b/i`. -/
def hasMonthName (s : List Char) : Bool :=
  reTest
    (RE.seq RE.wb
      (RE.seq
        (altList [rstrCI "January", rstrCI "February", rstrCI "March", rstrCI "April",
          rstrCI "May", rstrCI "June", rstrCI "July", rstrCI "August", rstrCI "September",
          rstrCI "October", rstrCI "November", rstrCI "December"])
        RE.wb))
    s

/-- Test of `/\b(today|yesterday|tomorrow)\b/i`. -/
def hasRelativeWord (s : List Char) : Bool :=
  reTest
    (RE.seq RE.wb
      (RE.seq (altList [rstrCI "today", rstrCI "yesterday", rstrCI "tomorrow"]) RE.wb))
    s

/-- The source's `calculateConfidence`: base 0.8, adjusted by the five
heuristics in source order, clamped to [0, 1] by
`Math.min(1.0, Math.max(0.0, confidence))`.  The two arguments are the
chrono best match's text and whether an hour component was parsed
(`chronoResult.start.get("hour") !== null`). -/
def calculateConfidence (matchText : String) (hasHour : Bool) : ℚ :=
  let c0 : ℚ := 0.8
  let c1 := if hasFourDigits matchText.data then c0 + 0.1 else c0
  let c2 := if hasMonthName matchText.data then c1 + 0.05 else c1
  let c3 := if hasHour then c2 + 0.05 else c2
  let c4 := if matchText.length < 5 then c3 - 0.2 else c3
  let c5 := if hasRelativeWord matchText.data then c4 - 0.1 else c4
  min 1 (max 0 c5)

/-- What the external chrono parser reports for its best match: the
matched text and index, whether an hour component is known, and the
derived date / time / datetime strings
(`start.date().toISOString().split("T")[0]`,
`start.date().toTimeString().split(" ")[0]`,
`start.date().toISOString()`). -/
structure ChronoResult where
  text : String
  index : Nat
  hasHour : Bool
  dateISO : String
  timeString : String
  datetimeISO : String
  deriving DecidableEq, Repr

/-- The record built by `extractTemporalInfo`. -/
structure TemporalResult where
  extractedDate : Option String
  extractedTime : Option String
  extractedDatetime : Option String
  confidence : ℚ
  rawMatches : List (String × Nat × String)
  temporalContext : List (String × CtxVal)
  deriving DecidableEq, Repr

/-- The source's `extractTemporalInfo`.  `chrono` abstracts
`chrono.parse(text, captureDate)` (an external capability seeded with
the reference instant); the rest follows the source: take the first
chrono result as best match, project its date/time/datetime, score it
with `calculateConfidence`, scan for temporal context regardless, and
return `null` unless a date, a time, or a non-empty context map was
found.  Empty input returns `null`. -/
def extractTemporalInfo (chrono : String → List ChronoResult) (text : String) :
    Option TemporalResult :=
  if text = "" then none
  else
    let base : TemporalResult :=
      match chrono text with
      | [] =>
          { extractedDate := none, extractedTime := none, extractedDatetime := none,
            confidence := 0, rawMatches := [], temporalContext := [] }
      | best :: _ =>
          { extractedDate := some best.dateISO,
            extractedTime := if best.hasHour then some best.timeString else none,
            extractedDatetime := some best.datetimeISO,
            confidence := calculateConfidence best.text best.hasHour,
            rawMatches := [(best.text, best.index, "chrono")],
            temporalContext := [] }
    let ctx := extractTemporalContext text
    if base.extractedDate.isSome || base.extractedTime.isSome || ctx ≠ [] then
      some { base with temporalContext := ctx }
    else none

/-- The source's `combineTextForEmbedding`: build the labeled sections
in source order — `Note:`, `Content:`, `Tags:`, `Temporal context:` —
skipping a section when its source is falsy/empty, then join with a
blank line.  `note`/`extractedText` are `Option String` because the
JavaScript callers may pass `null`/`undefined`; the `if (x && x.trim())`
truthiness tests are modeled literally. -/
def combineTextForEmbedding (note extractedText : Option String) (tags : List String)
    (temporalContext : List (String × CtxVal)) : String :=
  let parts : List String := []
  let parts :=
    match note with
    | some n => if n ≠ "" ∧ jsTrimS n ≠ "" then parts ++ ["Note: " ++ jsTrimS n] else parts
    | none => parts
  let parts :=
    match extractedText with
    | some t => if t ≠ "" ∧ jsTrimS t ≠ "" then parts ++ ["Content: " ++ jsTrimS t] else parts
    | none => parts
  let parts :=
    if tags ≠ [] then parts ++ ["Tags: " ++ String.intercalate ", " tags] else parts
  let parts :=
    if temporalContext ≠ [] then
      parts ++
        ["Temporal context: " ++
          String.intercalate " " (temporalContext.map (fun kv => kv.2.text))]
    else parts
  String.intercalate "\n\n" parts

/-- Modelled from the spec (§4.3), for comparison with the source's
combiner: "Emits at most four labeled sections, in fixed order:
`Note: <trimmed note>`, `Content: <trimmed extracted text>`,
`Tags: <comma-joined tags>`, `Temporal context: <space-joined matched
texts from temporal context, in map iteration order>`.  Omit any
section whose source is empty/absent.  Join present sections with a
blank-line separator.  Empty note/extractedText (after trim) are
treated as absent." -/
def combineSpec (note extractedText : Option String) (tags : List String)
    (temporalContext : List (String × CtxVal)) : String :=
  let sections : List (Option String) :=
    [ match note with
      | some n => if jsTrimS n = "" then none else some ("Note: " ++ jsTrimS n)
      | none => none,
      match extractedText with
      | some t => if jsTrimS t = "" then none else some ("Content: " ++ jsTrimS t)
      | none => none,
      if tags = [] then none else some ("Tags: " ++ String.intercalate ", " tags),
      if temporalContext = [] then none
      else
        some ("Temporal context: " ++
          String.intercalate " " (temporalContext.map (fun kv => kv.2.text))) ]
  String.intercalate "\n\n" (sections.filterMap id)

/-- The source's `generateEmbedding`, with the external OpenAI call
abstracted as `svc`: reject empty/whitespace-only text, truncate the
input to 8000 characters (`text.substring(0, 8000)`), and wrap a
service failure message. -/
def generateEmbedding (svc : String → Except String (List ℚ)) (text : String) :
    Except String (List ℚ) :=
  if text = "" ∨ jsTrimS text = "" then
    Except.error "No text provided for embedding generation"
  else
    match svc ⟨text.data.take 8000⟩ with
    | Except.ok v => Except.ok v
    | Except.error m => Except.error ("Embedding generation failed: " ++ m)

/-- The source's `extractTextFromImage`, with the Vision client
abstracted as `vision`: `Except.error` is a thrown Vision failure,
`Except.ok none` is "no text detected" (empty result, not an error),
`Except.ok (some fullText)` is the first annotation's description,
which is then cleaned by `cleanExtractedText`. -/
def extractTextFromImage (vision : String → Except String (Option String))
    (imageUrl : String) : Except String String :=
  if imageUrl = "" then Except.error "No image URL provided"
  else
    match vision imageUrl with
    | Except.error m => Except.error ("Google Vision OCR failed: " ++ m)
    | Except.ok none => Except.ok ""
    | Except.ok (some fullText) => Except.ok (cleanExtractedText fullText)

/-- One partial-field update sent to
`supabase.from("captures").update(...)`: `none` means the field is not
part of the update payload. -/
structure UpdateFields where
  processing_status : Option String := none
  processed_at : Option String := none
  extracted_text : Option String := none
  embedding : Option (List ℚ) := none
  extracted_date : Option String := none
  extracted_time : Option String := none
  extracted_datetime : Option String := none
  date_confidence : Option ℚ := none
  temporal_context : Option (List (String × CtxVal)) := none
  deriving DecidableEq, Repr

/-- The success value returned by `processCapture`. -/
structure ProcessSuccess where
  extractedText : String
  hasEmbedding : Bool
  temporalInfo : Option TemporalResult
  deriving DecidableEq, Repr

/-- The collaborators and outcomes that `processCapture` interacts
with: the Vision OCR call, the embedding service, the chrono parser,
the error results of the two in-`try` status/data writes (the supabase
client reports failures as a returned `error` value), and the
timestamp taken for `new Date().toISOString()`. -/
structure Env where
  vision : String → Except String (Option String)
  embedSvc : String → Except String (List ℚ)
  chrono : String → List ChronoResult
  statusUpdateError : Option String
  finalUpdateError : Option String
  now : String

/-- JavaScript truthiness of an optional string (`undefined`, `null`
and `""` are falsy). -/
def jsStrTruthy : Option String → Bool
  | some s => s ≠ ""
  | none => false

/-- The payload of the initial `processing` status update. -/
def procWrite : UpdateFields :=
  { processing_status := some "processing" }

/-- The payload of the `catch` block's failure update. -/
def failWrite (now : String) : UpdateFields :=
  { processing_status := some "failed", processed_at := some now }

/-- The text handed to temporal extraction:
`[note, extractedText].filter(Boolean).join("\n\n")`. -/
def procAllText (note : Option String) (extractedText : String) : String :=
  String.intercalate "\n\n" (([note, some extractedText].filter jsStrTruthy).filterMap id)

/-- The `updateData` payload of the successful path, assembled field by
field exactly as in the source (always `extracted_text`, status
`completed` and the processed timestamp; `embedding` only when
produced; each temporal field only when the extractor produced a
truthy value, including the falsy-skip of a zero confidence). -/
def completedUpdate (now extractedText : String) (embedding : Option (List ℚ))
    (temporalInfo : Option TemporalResult) : UpdateFields :=
  { extracted_text := some extractedText,
    processing_status := some "completed",
    processed_at := some now,
    embedding := embedding,
    extracted_date :=
      match temporalInfo with
      | some ti => if jsStrTruthy ti.extractedDate then ti.extractedDate else none
      | none => none,
    extracted_time :=
      match temporalInfo with
      | some ti => if jsStrTruthy ti.extractedTime then ti.extractedTime else none
      | none => none,
    extracted_datetime :=
      match temporalInfo with
      | some ti => ti.extractedDatetime
      | none => none,
    date_confidence :=
      match temporalInfo with
      | some ti => if ti.confidence ≠ 0 then some ti.confidence else none
      | none => none,
    temporal_context :=
      match temporalInfo with
      | some ti => if ti.temporalContext ≠ [] then some ti.temporalContext else none
      | none => none }

/-- The `try` body of `processCapture`: write `processing`, OCR (if an
image URL is present), temporal extraction over
`[note, extractedText].filter(Boolean).join("\n\n")`, combine, attempt
the embedding (its failure swallowed), then the final update with
`updateData` assembled field by field exactly as in the source
(including the falsy-skip of a zero confidence).  Returns the result
together with the list of update payloads sent, in order. -/
def processCaptureTry (env : Env) (imageUrl note : Option String) (tags : List String) :
    Except String ProcessSuccess × List UpdateFields :=
  match env.statusUpdateError with
  | some m => (Except.error ("Failed to update processing status: " ++ m), [procWrite])
  | none =>
    let ocr : Except String String :=
      match imageUrl with
      | some url => if url = "" then Except.ok "" else extractTextFromImage env.vision url
      | none => Except.ok ""
    match ocr with
    | Except.error e => (Except.error e, [procWrite])
    | Except.ok extractedText =>
      let temporalInfo := extractTemporalInfo env.chrono (procAllText note extractedText)
      let combinedText :=
        combineTextForEmbedding note (some extractedText) tags
          (match temporalInfo with
           | some ti => ti.temporalContext
           | none => [])
      let embedding : Option (List ℚ) :=
        if (jsTrimS combinedText).length > 0 then
          match generateEmbedding env.embedSvc combinedText with
          | Except.ok e => some e
          | Except.error _ => none
        else none
      let upd := completedUpdate env.now extractedText embedding temporalInfo
      match env.finalUpdateError with
      | some m => (Except.error m, [procWrite, upd])
      | none =>
          (Except.ok
            { extractedText := extractedText,
              hasEmbedding := embedding.isSome,
              temporalInfo := temporalInfo },
           [procWrite, upd])

/-- The source's `processCapture`: run the `try` body; on any error,
the single `catch` additionally sends the
`{processing_status: "failed", processed_at: now}` update and
re-throws the original error. -/
def processCapture (env : Env) (imageUrl note : Option String) (tags : List String) :
    Except String ProcessSuccess × List UpdateFields :=
  match processCaptureTry env imageUrl note tags with
  | (Except.ok r, ws) => (Except.ok r, ws)
  | (Except.error e, ws) =>
      (Except.error e, ws ++ [failWrite env.now])

/-- A row returned by the semantic search RPC (`match_captures`):
capture id plus similarity. -/
structure SemRow where
  id : Nat
  similarity : ℚ
  deriving DecidableEq, Repr

/-- A row returned by the full-text search query. -/
structure FtRow where
  id : Nat
  deriving DecidableEq, Repr

/-- An entry of the combined-results map / the final ranked list. -/
structure MergedRow where
  id : Nat
  searchType : String
  relevanceScore : ℚ
  deriving DecidableEq, Repr

/-- `Map.prototype.set`: an existing key keeps its insertion position
but takes the new value; a fresh key is appended. -/
def mapSet : List MergedRow → MergedRow → List MergedRow
  | [], e => [e]
  | x :: xs, e => if x.id = e.id then e :: xs else x :: mapSet xs e

/-- `Map.prototype.has` on the combined-results map. -/
def mapHas (l : List MergedRow) (i : Nat) : Bool :=
  l.any (fun x => x.id = i)

/-- The semantic pass of `hybridSearch`:
`semanticResults.forEach(result => combinedResults.set(result.id,
{...result, searchType: "semantic", relevanceScore: result.similarity}))`. -/
def semGo : List SemRow → List MergedRow → List MergedRow
  | [], m => m
  | r :: rs, m => semGo rs (mapSet m ⟨r.id, "semantic", r.similarity⟩)

/-- The full-text pass of `hybridSearch`:
`fullTextResults.slice(0, fullTextLimit).forEach((result, index) =>
if (!combinedResults.has(result.id)) combinedResults.set(result.id,
{...result, searchType: "fulltext", relevanceScore: 1 - index / fullTextLimit}))`.
`i` is the running `index` within the sliced array. -/
def ftGo (limit : Nat) : Nat → List FtRow → List MergedRow → List MergedRow
  | _, [], m => m
  | i, r :: rs, m =>
      ftGo limit (i + 1) rs
        (if mapHas m r.id then m
         else m ++ [⟨r.id, "fulltext", 1 - (i : ℚ) / (limit : ℚ)⟩])

/-- The descending-relevance order used by
`.sort((a, b) => b.relevanceScore - a.relevanceScore)`. -/
def scoreGE (a b : MergedRow) : Prop :=
  b.relevanceScore ≤ a.relevanceScore

instance : DecidableRel scoreGE :=
  fun a b => inferInstanceAs (Decidable (b.relevanceScore ≤ a.relevanceScore))

instance : IsTotal MergedRow scoreGE :=
  ⟨fun a b => le_total b.relevanceScore a.relevanceScore⟩

instance : IsTrans MergedRow scoreGE :=
  ⟨fun _ _ _ h1 h2 => le_trans h2 h1⟩

/-- The merge-and-rank step of the source's `hybridSearch`, as a
function of the two sub-search result lists and `fullTextLimit`:
semantic pass, then full-text pass over the first `fullTextLimit`
lexical rows, then a stable sort descending by relevance score
(JavaScript `Array.prototype.sort` is stable, so any stable sort with
the same comparator produces the same list). -/
def hybridSearch (semanticResults : List SemRow) (fullTextResults : List FtRow)
    (fullTextLimit : Nat) : List MergedRow :=
  List.insertionSort scoreGE
    (ftGo fullTextLimit 0 (fullTextResults.take fullTextLimit) (semGo semanticResults []))

/-- Capture ids of the entries of a merged-results list. -/
def idsOf (l : List MergedRow) : List Nat :=
  l.map (fun e => e.id)

/-- Does `s` start with `pat`? -/
def startsWithSeg : List Char → List Char → Bool
  | [], _ => true
  | _ :: _, [] => false
  | p :: ps, c :: cs => p == c && startsWithSeg ps cs

/-- Does `pat` occur contiguously anywhere in `s`? -/
def containsSeg (pat : List Char) : List Char → Bool
  | [] => startsWithSeg pat []
  | c :: cs => startsWithSeg pat (c :: cs) || containsSeg pat cs

set_option maxRecDepth 100000

/-- C2.  The claim says the sanitizer's output for
`"Invoice #1023\nDate: 03/14/2024\nTotal: $45.00"` retains the
invoice/date/total lines and in particular that `03/14/2024` survives
sanitization.  It does not: the `/\d+\s*\/\s*\d+\s*\/\s*\d+/g` pass
deletes the slash-delimited date, and the `/\b\d{4}\b/g` year pass
zeroes `1023` (outside [1900, 2100]), so the output is
`"Invoice #\nDate:\nTotal: $45.00"` and contains neither `03/14/2024`
nor any digit of the invoice number. -/
theorem c2_counterexample :
    cleanExtractedText "Invoice #1023\nDate: 03/14/2024\nTotal: $45.00" =
      "Invoice #\nDate:\nTotal: $45.00" ∧
    containsSeg "03/14/2024".data
      (cleanExtractedText "Invoice #1023\nDate: 03/14/2024\nTotal: $45.00").data = false := by
  constructor
  · decide
  · decide

/-- C2 (amended).  For the input
`"Invoice #1023\nDate: 03/14/2024\nTotal: $45.00"` the sanitizer
deletes the date `03/14/2024` (slash-delimited numeric-triple rule)
and zeroes `1023` (year-range rule), keeping the `Total: $45.00` line
and the bare `Invoice #` / `Date:` labels; the date therefore cannot
be recovered from the sanitized text. -/
theorem c2_amended_thm :
    cleanExtractedText "Invoice #1023\nDate: 03/14/2024\nTotal: $45.00" =
      "Invoice #\nDate:\nTotal: $45.00" ∧
    containsSeg "Total: $45.00".data
      (cleanExtractedText "Invoice #1023\nDate: 03/14/2024\nTotal: $45.00").data = true ∧
    containsSeg "03/14/2024".data
      (cleanExtractedText "Invoice #1023\nDate: 03/14/2024\nTotal: $45.00").data = false ∧
    containsSeg "1023".data
      (cleanExtractedText "Invoice #1023\nDate: 03/14/2024\nTotal: $45.00").data = false := by
  refine ⟨by decide, by decide, by decide, by decide⟩

/-- C7.  The claim says the sanitizer is idempotent.  It is not: on
`"12 if x y z\n\n34."` the keyword rule deletes `if x y z`, leaving
`"12\n\n34."`, and only a second pass's short-number-pair rule
(`/\b\d{1,3}\s+\d{1,3}\b/g`, whose `\s+` crosses the blank line) can
then delete `12\n\n34`, so the second application differs from the
first. -/
theorem c7_counterexample :
    cleanExtractedText "12 if x y z\n\n34." = "12\n\n34." ∧
    cleanExtractedText (cleanExtractedText "12 if x y z\n\n34.") = "." ∧
    cleanExtractedText (cleanExtractedText "12 if x y z\n\n34.") ≠
      cleanExtractedText "12 if x y z\n\n34." := by
  refine ⟨by decide, by decide, by decide⟩

/-- C7 (amended).  The sanitizer is not idempotent: there is an input
`x` with `cleanExtractedText (cleanExtractedText x) ≠
cleanExtractedText x` (an earlier content-removal pass can create a
new match — e.g. a short number pair across a blank line — that only
the next application removes). -/
theorem c7_amended_thm :
    ∃ x : String, cleanExtractedText (cleanExtractedText x) ≠ cleanExtractedText x :=
  ⟨"12 if x y z\n\n34.", by decide⟩

/-- C6.  The confidence of a chrono date match equals the clamped sum
of the base 0.8 and the five documented heuristic adjustments (+0.1
for a 4-digit year in the matched text, +0.05 for a month name, +0.05
for a parsed hour, −0.2 for a match under 5 characters, −0.1 for a
relative-date word), and is therefore always within [0, 1]. -/
theorem c6_confidence_formula_and_bounds (matchText : String) (hasHour : Bool) :
    calculateConfidence matchText hasHour =
      min 1 (max 0
        ((0.8 : ℚ) + (if hasFourDigits matchText.data then 0.1 else 0)
          + (if hasMonthName matchText.data then 0.05 else 0)
          + (if hasHour then 0.05 else 0)
          - (if matchText.length < 5 then 0.2 else 0)
          - (if hasRelativeWord matchText.data then 0.1 else 0))) ∧
    0 ≤ calculateConfidence matchText hasHour ∧
    calculateConfidence matchText hasHour ≤ 1 := by
  unfold calculateConfidence
  refine ⟨?_, le_min (by norm_num) (le_max_left 0 _), min_le_left 1 _⟩
  split_ifs <;> norm_num

theorem jsTrimS_empty : jsTrimS "" = "" := rfl

theorem ne_empty_of_jsTrimS_ne {n : String} (h : jsTrimS n ≠ "") : n ≠ "" := by
  intro hn
  subst hn
  exact h rfl


/-- C8.  The combiner emits only the four labeled sections Note,
Content, Tags, Temporal context, in exactly that order, omitting each
section whose source is absent or empty (note/extracted text empty
after trim, empty tag list, empty temporal-context map), joined by a
blank-line separator: the source's `combineTextForEmbedding` coincides
with `combineSpec`, the direct transcription of the spec sentence. -/
theorem c8_combiner_refines_spec (note extractedText : Option String) (tags : List String)
    (temporalContext : List (String × CtxVal)) :
    combineTextForEmbedding note extractedText tags temporalContext =
      combineSpec note extractedText tags temporalContext := by
  have hc : ∀ n : String, (n ≠ "" ∧ jsTrimS n ≠ "") ↔ ¬ jsTrimS n = "" :=
    fun n => ⟨fun h => h.2, fun h => ⟨ne_empty_of_jsTrimS_ne h, h⟩⟩
  unfold combineTextForEmbedding combineSpec
  cases note <;> cases extractedText <;>
    simp only [hc] <;>
    split_ifs <;>
    simp_all [List.filterMap_cons_none, List.filterMap_cons_some, id_eq]

/-- C1 (amended).  If the initial `processing` status write fails, the
whole operation fails with the status-update error — but the single
`catch` block still attempts a failed-status write (the `throw` for
the step-1 failure happens inside the `try`), so the trace is the
attempted `processing` write followed by a `failed` write, and the
original error is re-surfaced. -/
theorem c1_amended_thm (env : Env) (imageUrl note : Option String) (tags : List String)
    (m : String) (h : env.statusUpdateError = some m) :
    processCapture env imageUrl note tags =
      (Except.error ("Failed to update processing status: " ++ m),
       [procWrite, failWrite env.now]) := by
  unfold processCapture processCaptureTry
  rw [h]
  rfl

/-- Environment in which the initial status write fails. -/
def envC1 : Env :=
  { vision := fun _ => Except.ok none,
    embedSvc := fun _ => Except.error "down",
    chrono := fun _ => [],
    statusUpdateError := some "boom",
    finalUpdateError := none,
    now := "2024-01-01T00:00:00.000Z" }

/-- C1 witness: the amended statement at a concrete failing-write
environment. -/
theorem c1_amended_witness :
    processCapture envC1 none none [] =
      (Except.error "Failed to update processing status: boom",
       [procWrite, failWrite "2024-01-01T00:00:00.000Z"]) :=
  c1_amended_thm envC1 none none [] "boom" rfl

/-- C1 counterexample.  The claim says that when the step-1
`processing` write fails, no failed-status write is attempted.  In the
code the step-1 `throw` is inside the `try`, so the `catch` does send
a `{processing_status: "failed"}` update: with a failing first write,
the attempted writes are exactly `processing` then `failed`. -/
theorem c1_counterexample :
    envC1.statusUpdateError = some "boom" ∧
    (processCapture envC1 none none []).1 =
      Except.error "Failed to update processing status: boom" ∧
    (processCapture envC1 none none []).2.map UpdateFields.processing_status =
      [some "processing", some "failed"] :=
  ⟨rfl, rfl, rfl⟩

/-- C3.  If the embedding service throws on every input but OCR
succeeds, `processCapture` still succeeds: the final update carries
status `completed`, no `embedding` field, and all other step-6 fields
(extracted text, processed timestamp, temporal fields) exactly as the
source assembles them; the returned result reports
`hasEmbedding = false`. -/
theorem c3_embedding_nonfatal (env : Env) (url raw errMsg : String) (note : Option String)
    (tags : List String)
    (hs : env.statusUpdateError = none) (hf : env.finalUpdateError = none)
    (hu : url ≠ "") (hv : env.vision url = Except.ok (some raw))
    (he : ∀ t, env.embedSvc t = Except.error errMsg) :
    processCapture env (some url) note tags =
      (Except.ok
        { extractedText := cleanExtractedText raw,
          hasEmbedding := false,
          temporalInfo :=
            extractTemporalInfo env.chrono (procAllText note (cleanExtractedText raw)) },
       [procWrite,
        completedUpdate env.now (cleanExtractedText raw) none
          (extractTemporalInfo env.chrono (procAllText note (cleanExtractedText raw)))]) := by
  have hgen : ∀ t, (match generateEmbedding env.embedSvc t with
      | Except.ok e => some e
      | Except.error _ => (none : Option (List ℚ))) = (none : Option (List ℚ)) := by
    intro t
    unfold generateEmbedding
    split_ifs
    · rfl
    · rw [he]
  unfold processCapture processCaptureTry extractTextFromImage
  rw [hs]
  simp only [if_neg hu]
  rw [hv]
  simp only [hgen, ite_self, hf]
  rfl

/-- Environment in which OCR succeeds and the embedding service is
down. -/
def envC3 : Env :=
  { vision := fun _ => Except.ok (some "hi"),
    embedSvc := fun _ => Except.error "down",
    chrono := fun _ => [],
    statusUpdateError := none,
    finalUpdateError := none,
    now := "2024-01-01T00:00:00.000Z" }

/-- C3 witness: with OCR text `"hi"` and a failing embedding service,
processing completes with status `completed` and no embedding. -/
theorem c3_witness :
    processCapture envC3 (some "img") none [] =
      (Except.ok { extractedText := "hi", hasEmbedding := false, temporalInfo := none },
       [procWrite, completedUpdate "2024-01-01T00:00:00.000Z" "hi" none none]) :=
  c3_embedding_nonfatal envC3 "img" "hi" "down" none [] rfl rfl (by decide) rfl
    (fun _ => rfl)

/-- C9.  If OCR throws, `processCapture` fails with the wrapped OCR
error; the attempted writes are exactly the `processing` write and the
`failed` write with a processed timestamp, and no attempted write
touches the extracted-text, embedding, or temporal fields — they keep
their prior persisted values. -/
theorem c9_ocr_failure_isolation (env : Env) (url errMsg : String) (note : Option String)
    (tags : List String)
    (hs : env.statusUpdateError = none) (hu : url ≠ "")
    (hv : env.vision url = Except.error errMsg) :
    processCapture env (some url) note tags =
      (Except.error ("Google Vision OCR failed: " ++ errMsg),
       [procWrite, failWrite env.now]) ∧
    ∀ w ∈ (processCapture env (some url) note tags).2,
      w.extracted_text = none ∧ w.embedding = none ∧ w.extracted_date = none ∧
      w.extracted_time = none ∧ w.extracted_datetime = none ∧
      w.date_confidence = none ∧ w.temporal_context = none := by
  have h1 : processCapture env (some url) note tags =
      (Except.error ("Google Vision OCR failed: " ++ errMsg),
       [procWrite, failWrite env.now]) := by
    unfold processCapture processCaptureTry extractTextFromImage
    rw [hs]
    simp only [if_neg hu]
    rw [hv]
    rfl
  refine ⟨h1, ?_⟩
  intro w hw
  rw [h1] at hw
  simp only [List.mem_cons, List.not_mem_nil, or_false] at hw
  rcases hw with hw | hw <;> subst hw <;>
    exact ⟨rfl, rfl, rfl, rfl, rfl, rfl, rfl⟩

/-- Environment in which the Vision OCR call throws. -/
def envC9 : Env :=
  { vision := fun _ => Except.error "quota exceeded",
    embedSvc := fun _ => Except.error "down",
    chrono := fun _ => [],
    statusUpdateError := none,
    finalUpdateError := none,
    now := "2024-01-01T00:00:00.000Z" }

/-- C9 witness: a concrete OCR failure leaves exactly the
`processing` and `failed` writes, touching no content field. -/
theorem c9_witness :
    processCapture envC9 (some "img") (some "a note") ["t"] =
      (Except.error "Google Vision OCR failed: quota exceeded",
       [procWrite, failWrite "2024-01-01T00:00:00.000Z"]) ∧
    ∀ w ∈ (processCapture envC9 (some "img") (some "a note") ["t"]).2,
      w.extracted_text = none ∧ w.embedding = none ∧ w.extracted_date = none ∧
      w.extracted_time = none ∧ w.extracted_datetime = none ∧
      w.date_confidence = none ∧ w.temporal_context = none :=
  c9_ocr_failure_isolation envC9 "img" "quota exceeded" (some "a note") ["t"] rfl
    (by decide) rfl

theorem mapHas_iff (l : List MergedRow) (i : Nat) :
    mapHas l i = true ↔ i ∈ idsOf l := by
  unfold mapHas idsOf
  rw [List.any_eq_true]
  constructor
  · rintro ⟨x, hx, hp⟩
    exact List.mem_map.mpr ⟨x, hx, of_decide_eq_true hp⟩
  · rintro h
    rcases List.mem_map.mp h with ⟨x, hx, hfx⟩
    exact ⟨x, hx, decide_eq_true hfx⟩

theorem mapHas_append (l₁ l₂ : List MergedRow) (i : Nat) :
    mapHas (l₁ ++ l₂) i = (mapHas l₁ i || mapHas l₂ i) := by
  unfold mapHas
  exact List.any_append

theorem mapSet_of_not_has (l : List MergedRow) (e : MergedRow)
    (h : mapHas l e.id = false) : mapSet l e = l ++ [e] := by
  induction l with
  | nil => rfl
  | cons x xs ih =>
      simp only [mapHas, List.any_cons, Bool.or_eq_false_iff,
        decide_eq_false_iff_not] at h
      simp only [mapSet, if_neg h.1, List.cons_append]
      rw [ih h.2]

theorem mem_ids_mapSet (l : List MergedRow) (e : MergedRow) (y : Nat)
    (h : y ∈ idsOf (mapSet l e)) : y = e.id ∨ y ∈ idsOf l := by
  induction l with
  | nil =>
      simp only [mapSet, idsOf, List.map_cons, List.map_nil, List.mem_singleton] at h
      exact Or.inl h
  | cons x xs ih =>
      by_cases hx : x.id = e.id
      · simp only [mapSet, if_pos hx, idsOf, List.map_cons, List.mem_cons] at h
        rcases h with h | h
        · exact Or.inl h
        · exact Or.inr (List.mem_cons.mpr (Or.inr h))
      · simp only [mapSet, if_neg hx, idsOf, List.map_cons, List.mem_cons] at h
        rcases h with h | h
        · exact Or.inr (List.mem_cons.mpr (Or.inl h))
        · rcases ih h with h' | h'
          · exact Or.inl h'
          · exact Or.inr (List.mem_cons.mpr (Or.inr h'))

theorem nodup_ids_mapSet (l : List MergedRow) (e : MergedRow)
    (h : (idsOf l).Nodup) : (idsOf (mapSet l e)).Nodup := by
  induction l with
  | nil => simp [mapSet, idsOf]
  | cons x xs ih =>
      simp only [idsOf, List.map_cons, List.nodup_cons] at h
      by_cases hx : x.id = e.id
      · simp only [mapSet, if_pos hx, idsOf, List.map_cons, List.nodup_cons]
        exact ⟨by rw [← hx]; exact h.1, h.2⟩
      · simp only [mapSet, if_neg hx, idsOf, List.map_cons, List.nodup_cons]
        refine ⟨?_, ih h.2⟩
        intro hmem
        rcases mem_ids_mapSet xs e x.id hmem with h' | h'
        · exact hx h'
        · exact h.1 h'

theorem length_mapSet_le (l : List MergedRow) (e : MergedRow) :
    (mapSet l e).length ≤ l.length + 1 := by
  induction l with
  | nil => simp [mapSet]
  | cons x xs ih =>
      by_cases hx : x.id = e.id
      · simp [mapSet, if_pos hx]
      · simp only [mapSet, if_neg hx, List.length_cons]
        omega

/-- The merged entry built from a semantic row. -/
def toSemRow (r : SemRow) : MergedRow :=
  { id := r.id, searchType := "semantic", relevanceScore := r.similarity }

theorem semGo_eq : ∀ (sem : List SemRow) (acc : List MergedRow),
    (∀ r ∈ sem, mapHas acc r.id = false) → (sem.map SemRow.id).Nodup →
    semGo sem acc = acc ++ sem.map toSemRow
  | [], acc, _, _ => by simp [semGo]
  | r :: rs, acc, hd, hn => by
      simp only [List.map_cons, List.nodup_cons] at hn
      have hstep : mapSet acc (toSemRow r) = acc ++ [toSemRow r] :=
        mapSet_of_not_has acc (toSemRow r) (hd r (List.mem_cons_self r rs))
      have hd' : ∀ r' ∈ rs, mapHas (acc ++ [toSemRow r]) r'.id = false := by
        intro r' hr'
        rw [mapHas_append]
        have h1 : mapHas acc r'.id = false := hd r' (List.mem_cons_of_mem r hr')
        have h2 : mapHas [toSemRow r] r'.id = false := by
          simp only [mapHas, List.any_cons, List.any_nil, Bool.or_false,
            decide_eq_false_iff_not, toSemRow]
          intro heq
          exact hn.1 (heq ▸ List.mem_map_of_mem SemRow.id hr')
        rw [h1, h2]
        rfl
      calc semGo (r :: rs) acc = semGo rs (mapSet acc (toSemRow r)) := rfl
        _ = semGo rs (acc ++ [toSemRow r]) := by rw [hstep]
        _ = (acc ++ [toSemRow r]) ++ rs.map toSemRow := semGo_eq rs _ hd' hn.2
        _ = acc ++ (r :: rs).map toSemRow := by simp

theorem mem_ids_semGo : ∀ (sem : List SemRow) (acc : List MergedRow) (y : Nat),
    y ∈ idsOf (semGo sem acc) → y ∈ idsOf acc ∨ y ∈ sem.map SemRow.id
  | [], acc, y, h => Or.inl h
  | r :: rs, acc, y, h => by
      rcases mem_ids_semGo rs (mapSet acc (toSemRow r)) y h with h' | h'
      · rcases mem_ids_mapSet acc (toSemRow r) y h' with h'' | h''
        · exact Or.inr (List.mem_cons.mpr (Or.inl h''))
        · exact Or.inl h''
      · exact Or.inr (List.mem_cons.mpr (Or.inr h'))

theorem nodup_ids_semGo : ∀ (sem : List SemRow) (acc : List MergedRow),
    (idsOf acc).Nodup → (idsOf (semGo sem acc)).Nodup
  | [], _, h => h
  | r :: rs, acc, h =>
      nodup_ids_semGo rs (mapSet acc (toSemRow r)) (nodup_ids_mapSet acc (toSemRow r) h)

theorem length_semGo_le : ∀ (sem : List SemRow) (acc : List MergedRow),
    (semGo sem acc).length ≤ acc.length + sem.length
  | [], acc => by simp [semGo]
  | r :: rs, acc => by
      calc (semGo (r :: rs) acc).length
          = (semGo rs (mapSet acc (toSemRow r))).length := rfl
        _ ≤ (mapSet acc (toSemRow r)).length + rs.length := length_semGo_le rs _
        _ ≤ (acc.length + 1) + rs.length :=
            Nat.add_le_add_right (length_mapSet_le acc (toSemRow r)) rs.length
        _ = acc.length + (rs.length + 1) := by omega
        _ = acc.length + (r :: rs).length := by simp

theorem ftGo_suffix (L : Nat) : ∀ (rs : List FtRow) (i : Nat) (m : List MergedRow),
    ∃ t, ftGo L i rs m = m ++ t ∧
      ∀ e ∈ t, e.searchType = "fulltext" ∧ e.id ∉ idsOf m
  | [], i, m => ⟨[], by simp [ftGo], by simp⟩
  | r :: rs, i, m => by
      cases hh : mapHas m r.id with
      | true =>
          obtain ⟨t, ht, hp⟩ := ftGo_suffix L rs (i + 1) m
          refine ⟨t, ?_, hp⟩
          simpa [ftGo, hh] using ht
      | false =>
          obtain ⟨t, ht, hp⟩ :=
            ftGo_suffix L rs (i + 1)
              (m ++ [⟨r.id, "fulltext", 1 - (i : ℚ) / (L : ℚ)⟩])
          refine ⟨⟨r.id, "fulltext", 1 - (i : ℚ) / (L : ℚ)⟩ :: t, ?_, ?_⟩
          · simpa [ftGo, hh] using ht
          · intro e he
            rcases List.mem_cons.mp he with he | he
            · subst he
              refine ⟨rfl, ?_⟩
              intro hmem
              rw [← mapHas_iff] at hmem
              rw [hh] at hmem
              cases hmem
            · obtain ⟨h1, h2⟩ := hp e he
              refine ⟨h1, ?_⟩
              intro hmem
              apply h2
              simp only [idsOf, List.map_append, List.mem_append]
              exact Or.inl hmem

theorem nodup_ids_ftGo (L : Nat) : ∀ (rs : List FtRow) (i : Nat) (m : List MergedRow),
    (idsOf m).Nodup → (idsOf (ftGo L i rs m)).Nodup
  | [], _, _, h => h
  | r :: rs, i, m, h => by
      cases hh : mapHas m r.id with
      | true =>
          simpa [ftGo, hh] using nodup_ids_ftGo L rs (i + 1) m h
      | false =>
          have hgoal : (idsOf (ftGo L (i + 1) rs
              (m ++ [⟨r.id, "fulltext", 1 - (i : ℚ) / (L : ℚ)⟩]))).Nodup := by
            apply nodup_ids_ftGo L rs (i + 1)
            simp only [idsOf, List.map_append, List.map_cons, List.map_nil]
            rw [List.nodup_append]
            refine ⟨h, List.nodup_singleton _, ?_⟩
            intro a ha hb
            simp only [List.mem_singleton] at hb
            subst hb
            have hc : mapHas m r.id = true := (mapHas_iff m r.id).mpr ha
            rw [hh] at hc
            cases hc
          simpa [ftGo, hh] using hgoal

theorem length_ftGo_le (L : Nat) : ∀ (rs : List FtRow) (i : Nat) (m : List MergedRow),
    (ftGo L i rs m).length ≤ m.length + rs.length
  | [], _, m => by simp [ftGo]
  | r :: rs, i, m => by
      cases hh : mapHas m r.id with
      | true =>
          have h1 : (ftGo L i (r :: rs) m).length = (ftGo L (i + 1) rs m).length := by
            simp [ftGo, hh]
          have h2 := length_ftGo_le L rs (i + 1) m
          simp only [List.length_cons]
          omega
      | false =>
          have h1 : (ftGo L i (r :: rs) m).length =
              (ftGo L (i + 1) rs
                (m ++ [⟨r.id, "fulltext", 1 - (i : ℚ) / (L : ℚ)⟩])).length := by
            simp [ftGo, hh]
          have h2 := length_ftGo_le L rs (i + 1)
            (m ++ [⟨r.id, "fulltext", 1 - (i : ℚ) / (L : ℚ)⟩])
          simp only [List.length_append, List.length_cons, List.length_nil] at h1 h2 ⊢
          omega

theorem ftGo_mem_mono (L : Nat) : ∀ (rs : List FtRow) (i : Nat) (m : List MergedRow)
    (x : MergedRow), x ∈ m → x ∈ ftGo L i rs m
  | [], _, _, _, hx => hx
  | r :: rs, i, m, x, hx => by
      cases hh : mapHas m r.id with
      | true =>
          simpa [ftGo, hh] using ftGo_mem_mono L rs (i + 1) m x hx
      | false =>
          have := ftGo_mem_mono L rs (i + 1)
            (m ++ [⟨r.id, "fulltext", 1 - (i : ℚ) / (L : ℚ)⟩]) x
            (List.mem_append_left _ hx)
          simpa [ftGo, hh] using this

theorem ftGo_mem_new (L : Nat) : ∀ (rs : List FtRow) (j : Nat) (r : FtRow) (i : Nat)
    (m : List MergedRow),
    rs[j]? = some r → r.id ∉ idsOf m →
    (∀ k, k < j → ∀ r', rs[k]? = some r' → r'.id ≠ r.id) →
    (⟨r.id, "fulltext", 1 - ((i + j : Nat) : ℚ) / (L : ℚ)⟩ : MergedRow) ∈ ftGo L i rs m
  | [], j, r, i, m, hj, _, _ => by simp at hj
  | r0 :: rs, 0, r, i, m, hj, hfresh, _ => by
      simp only [List.getElem?_cons_zero, Option.some_inj] at hj
      subst hj
      have hh : mapHas m r0.id = false := by
        cases hmh : mapHas m r0.id with
        | false => rfl
        | true => exact absurd ((mapHas_iff m r0.id).mp hmh) hfresh
      have hmem : (⟨r0.id, "fulltext", 1 - (i : ℚ) / (L : ℚ)⟩ : MergedRow) ∈
          ftGo L (i + 1) rs (m ++ [⟨r0.id, "fulltext", 1 - (i : ℚ) / (L : ℚ)⟩]) :=
        ftGo_mem_mono L rs (i + 1) _ _
          (List.mem_append_right m (List.mem_singleton.mpr rfl))
      have hcast : ((i + 0 : Nat) : ℚ) = (i : ℚ) := by norm_num
      rw [hcast]
      simpa [ftGo, hh] using hmem
  | r0 :: rs, j + 1, r, i, m, hj, hfresh, hpre => by
      simp only [List.getElem?_cons_succ] at hj
      have hne : r0.id ≠ r.id :=
        hpre 0 (Nat.succ_pos j) r0 (by simp)
      have hpre' : ∀ k, k < j → ∀ r', rs[k]? = some r' → r'.id ≠ r.id := by
        intro k hk r' h'
        exact hpre (k + 1) (Nat.succ_lt_succ hk) r' (by simpa)
      cases hh : mapHas m r0.id with
      | true =>
          have := ftGo_mem_new L rs j r (i + 1) m hj hfresh hpre'
          have hcast : ((i + 1 + j : Nat) : ℚ) = ((i + (j + 1) : Nat) : ℚ) :=
            Nat.cast_inj.mpr (by omega)
          rw [← hcast]
          simpa [ftGo, hh] using this
      | false =>
          have hfresh' : r.id ∉ idsOf
              (m ++ [⟨r0.id, "fulltext", 1 - (i : ℚ) / (L : ℚ)⟩]) := by
            intro hmem
            simp only [idsOf, List.map_append, List.map_cons, List.map_nil,
              List.mem_append, List.mem_singleton] at hmem
            rcases hmem with hmem | hmem
            · exact hfresh hmem
            · exact hne hmem.symm
          have := ftGo_mem_new L rs j r (i + 1)
            (m ++ [⟨r0.id, "fulltext", 1 - (i : ℚ) / (L : ℚ)⟩]) hj hfresh' hpre'
          have hcast : ((i + 1 + j : Nat) : ℚ) = ((i + (j + 1) : Nat) : ℚ) :=
            Nat.cast_inj.mpr (by omega)
          rw [← hcast]
          simpa [ftGo, hh] using this

/-- C10.  In the hybrid search output every capture id appears at most
once, and the number of returned results is at most the number of
semantic results plus `fullTextLimit`. -/
theorem c10_dedup_and_size (sem : List SemRow) (ft : List FtRow) (L : Nat) :
    (idsOf (hybridSearch sem ft L)).Nodup ∧
    (hybridSearch sem ft L).length ≤ sem.length + L := by
  constructor
  · have hperm : List.Perm (hybridSearch sem ft L) (ftGo L 0 (ft.take L) (semGo sem [])) :=
      List.perm_insertionSort scoreGE _
    have hnd : (idsOf (ftGo L 0 (ft.take L) (semGo sem []))).Nodup :=
      nodup_ids_ftGo L (ft.take L) 0 (semGo sem [])
        (nodup_ids_semGo sem [] (by simp [idsOf]))
    simp only [idsOf] at hnd ⊢
    exact ((hperm.map (fun e : MergedRow => e.id)).nodup_iff).mpr hnd
  · rw [hybridSearch, List.length_insertionSort]
    have h1 := length_ftGo_le L (ft.take L) 0 (semGo sem [])
    have h2 := length_semGo_le sem []
    have h3 : (ft.take L).length ≤ L := by
      simp [List.length_take]
    simp only [List.length_nil] at h2
    omega

/-- C4.  A capture id present in both the semantic and the full-text
result sets keeps its semantic entry: the merged list contains the
semantic entry for it, and every merged entry with that id carries
`searchType = "semantic"` and the semantic similarity as its relevance
score (the full-text entry is discarded). -/
theorem c4_semantic_priority (sem : List SemRow) (ft : List FtRow) (L : Nat) (srow : SemRow)
    (hn : (sem.map SemRow.id).Nodup) (hs : srow ∈ sem)
    (hf : srow.id ∈ ft.map FtRow.id) :
    toSemRow srow ∈ hybridSearch sem ft L ∧
    ∀ e ∈ hybridSearch sem ft L, e.id = srow.id →
      e.searchType = "semantic" ∧ e.relevanceScore = srow.similarity := by
  have hsem : semGo sem [] = sem.map toSemRow := by
    have := semGo_eq sem [] (fun r _ => rfl) hn
    simpa using this
  obtain ⟨t, hteq, htprop⟩ := ftGo_suffix L (ft.take L) 0 (semGo sem [])
  constructor
  · rw [hybridSearch, List.mem_insertionSort, hteq]
    apply List.mem_append_left
    rw [hsem]
    exact List.mem_map_of_mem toSemRow hs
  · intro e he heid
    rw [hybridSearch, List.mem_insertionSort, hteq] at he
    rcases List.mem_append.mp he with h1 | h2
    · rw [hsem] at h1
      obtain ⟨r', hr', hconv⟩ := List.mem_map.mp h1
      have hrid : r'.id = srow.id := by
        rw [← heid, ← hconv]
        rfl
      have : r' = srow :=
        List.inj_on_of_nodup_map hn hr' hs hrid
      subst this
      rw [← hconv]
      exact ⟨rfl, rfl⟩
    · exfalso
      have h3 := (htprop e h2).2
      apply h3
      rw [heid, hsem]
      have : toSemRow srow ∈ sem.map toSemRow := List.mem_map_of_mem toSemRow hs
      simpa [idsOf, toSemRow] using List.mem_map_of_mem (fun x : MergedRow => x.id) this

/-- C5.  The full-text result at 0-based rank `j` of the sliced list
(`j < fullTextLimit`) that survives deduplication is assigned
relevance score `1 - j / fullTextLimit`, and for every combination of
inputs the merged list is ordered descending by relevance score. -/
theorem c5_fulltext_scoring_and_ordering (sem : List SemRow) (ft : List FtRow) (L : Nat) :
    List.Sorted scoreGE (hybridSearch sem ft L) ∧
    ∀ (j : Nat) (r : FtRow), (ft.take L)[j]? = some r → r.id ∉ sem.map SemRow.id →
      (∀ k, k < j → ∀ r', (ft.take L)[k]? = some r' → r'.id ≠ r.id) →
      (⟨r.id, "fulltext", 1 - (j : ℚ) / (L : ℚ)⟩ : MergedRow) ∈ hybridSearch sem ft L := by
  constructor
  · exact List.sorted_insertionSort scoreGE _
  · intro j r hj hns hpre
    have hfresh : r.id ∉ idsOf (semGo sem []) := by
      intro hmem
      rcases mem_ids_semGo sem [] r.id hmem with h | h
      · simp [idsOf] at h
      · exact hns h
    have hmem := ftGo_mem_new L (ft.take L) j r 0 (semGo sem []) hj hfresh hpre
    rw [hybridSearch, List.mem_insertionSort]
    have hcast : ((0 + j : Nat) : ℚ) = (j : ℚ) := by
      norm_num
    rw [← hcast]
    exact hmem

/-- C4 witness: id 1 appears in both result sets; the merged entry for
it is the semantic one with score 9/10. -/
theorem c4_witness :
    toSemRow ⟨1, 9/10⟩ ∈ hybridSearch [⟨1, 9/10⟩] [⟨1⟩] 5 ∧
    ∀ e ∈ hybridSearch [⟨1, 9/10⟩] [⟨1⟩] 5, e.id = 1 →
      e.searchType = "semantic" ∧ e.relevanceScore = 9/10 :=
  c4_semantic_priority [⟨1, 9/10⟩] [⟨1⟩] 5 ⟨1, 9/10⟩ (by simp) (List.mem_singleton.mpr rfl)
    (by simp)

/-- C5 witness: the lexical row with fresh id 2 at rank 0 enters with
score `1 - 0/5`, and the concrete merged list is sorted descending. -/
theorem c5_witness :
    List.Sorted scoreGE (hybridSearch [⟨1, 9/10⟩] [⟨2⟩] 5) ∧
    (⟨2, "fulltext", 1 - (0 : ℚ) / (5 : ℚ)⟩ : MergedRow) ∈ hybridSearch [⟨1, 9/10⟩] [⟨2⟩] 5 :=
  ⟨(c5_fulltext_scoring_and_ordering [⟨1, 9/10⟩] [⟨2⟩] 5).1,
   (c5_fulltext_scoring_and_ordering [⟨1, 9/10⟩] [⟨2⟩] 5).2 0 ⟨2⟩ rfl (by decide)
     (fun k hk => absurd hk (Nat.not_lt_zero k))⟩
